import Mathlib

/-!
Shallow embedding of the aggregation-view builder of the `ivi` dashboard
(`src/lo1.py`, `src/lo2.py`, `src/lo3.py`).

The source tables are pandas dataframes; here a table is a `List` of rows.
A case record carries the three demographic columns kept after cleaning
(`gender`, `age`, `province` in `lo2.py`/`lo3.py`; `sexo`, `edad`,
`residencia_provincia_nombre` in `lo1.py`).  Pandas operations are embedded
as follows: boolean-mask row selection is `List.filter`;
`groupby(...).size().reset_index(name="cases")` is one output row per
distinct grouping key with the occurrence count of that key (the grouping-key
order is left as an unspecified enumeration of the distinct keys, as the
spec notes); `sort_values("cases", ascending=False)` is a sort by the
`cases` column in descending order (the tie-break order is unspecified).
-/

namespace Ivi

/-- One row of the cleaned source table `covid_filtered`: a case record
with its gender, age and province (`lo2.py` line 14; ages are cast to
integers at line 17). -/
structure Record where
  gender : String
  age : Int
  province : String
deriving DecidableEq, Repr

/-- The boolean-mask filter at the head of `update_graphs`
(`lo2.py` lines 144-148, `lo3.py` lines 164-168): keep the records whose
gender is a member of `selected_genders` and whose age lies between the
two slider bounds, both comparisons non-strict. -/
def filterRecords (tbl : List Record) (selected_genders : List String)
    (age_min age_max : Int) : List Record :=
  tbl.filter fun r =>
    selected_genders.contains r.gender
      && decide (age_min ≤ r.age) && decide (r.age ≤ age_max)

/-- One row of the per-province aggregate `region_cases_df`. -/
structure RegionRow where
  province : String
  cases : Nat
deriving DecidableEq, Repr

/-- The grouped count `filtered_df.groupby("province").size().reset_index(name="cases")`
(`lo2.py` lines 151-155): one row per distinct province of `rows`, carrying
the number of records with that province. -/
def regionSize (rows : List Record) : List RegionRow :=
  (rows.map Record.province).dedup.map fun p =>
    ⟨p, (rows.map Record.province).count p⟩

/-- The comparison used by `sort_values("cases", ascending=False)`:
row `a` comes before row `b` when `a` has at least as many cases. -/
def casesDesc (a b : RegionRow) : Prop := b.cases ≤ a.cases

instance : DecidableRel casesDesc :=
  fun a b => inferInstanceAs (Decidable (b.cases ≤ a.cases))

instance : IsTotal RegionRow casesDesc :=
  ⟨fun a b => Nat.le_total b.cases a.cases⟩

instance : IsTrans RegionRow casesDesc :=
  ⟨fun _ _ _ hab hbc => Nat.le_trans hbc hab⟩

/-- The per-province table sorted by case count in descending order
(`lo2.py` lines 156-158, `lo1.py` line 47). -/
def region_cases_df (rows : List Record) : List RegionRow :=
  List.insertionSort casesDesc (regionSize rows)

/-- One row of the (age, province, gender) aggregate `age_region_df`
(also of `gapminder_data` in `lo1.py`). -/
structure AgeRegionRow where
  age : Int
  province : String
  gender : String
  cases : Nat
deriving DecidableEq, Repr

/-- The grouping key of the age-region aggregation: the
(age, province, gender) triple of a record. -/
def Record.key (r : Record) : Int × String × String :=
  (r.age, r.province, r.gender)

/-- The grouped count `groupby(["age", "province", "gender"]).size().reset_index(name="cases")`
(`lo2.py` lines 167-171, `lo1.py` line 14): one row per distinct
(age, province, gender) triple of `rows`, carrying its occurrence count. -/
def ageRegionSize (rows : List Record) : List AgeRegionRow :=
  (rows.map Record.key).dedup.map fun k =>
    ⟨k.1, k.2.1, k.2.2, (rows.map Record.key).count k⟩

/-- Definition `gapminder_data` of `lo1.py` line 14: the age-region aggregate
precomputed over the whole source table. -/
def gapminder_data (tbl : List Record) : List AgeRegionRow :=
  ageRegionSize tbl

/-- Callback `update_age_region` of `lo1.py` lines 56-60: restrict the precomputed
`gapminder_data` to the rows whose gender is selected. -/
def update_age_region (tbl : List Record) (selected_genders : List String) :
    List AgeRegionRow :=
  (gapminder_data tbl).filter fun row => selected_genders.contains row.gender

/-- The age-region computation of `lo2.py`/`lo3.py` with the gender filter
only, i.e. with no age constraint applied: group and count the
gender-filtered record set. -/
def ageRegionViewLo2 (tbl : List Record) (selected_genders : List String) :
    List AgeRegionRow :=
  ageRegionSize (tbl.filter fun r => selected_genders.contains r.gender)

/-- The dataframe computations of `update_graphs` (`lo2.py` lines 142-182,
`lo3.py` lines 161-213): filter once, then build the per-province table
(sorted descending by cases) and the age-region table from the same
filtered set.  The figure construction around them is charting-library
glue and carries no further data. -/
def update_graphs (tbl : List Record) (selected_genders : List String)
    (age_min age_max : Int) : List RegionRow × List AgeRegionRow :=
  let filtered_df := filterRecords tbl selected_genders age_min age_max
  (region_cases_df filtered_df, ageRegionSize filtered_df)

/-- The name used by the spec (`build_views`) for the aggregation-view builder
implemented by `update_graphs`. -/
def build_views (tbl : List Record) (selected_genders : List String)
    (age_min age_max : Int) : List RegionRow × List AgeRegionRow :=
  update_graphs tbl selected_genders age_min age_max

/-- The module-level state of the dashboard app: the cleaned source table
and the precomputed age-region aggregate, both loaded once at startup and
never reassigned. -/
structure AppState where
  covid_filtered : List Record
  gapminder_data : List AgeRegionRow
deriving DecidableEq, Repr

/-- One invocation of the `update_graphs` callback, as a transformer of
the app state: it reads `covid_filtered`, builds the two derived tables,
and performs no assignment to the state (every pandas operation it uses
returns a fresh dataframe). -/
def update_graphs_callback (s : AppState) (selected_genders : List String)
    (age_min age_max : Int) :
    AppState × (List RegionRow × List AgeRegionRow) :=
  (s, update_graphs s.covid_filtered selected_genders age_min age_max)

/-- A sequence of callback invocations, each taking the state left by the
previous one; `q` packs the (selected_genders, age_min, age_max) of one
invocation. -/
def runCallbacks (s : AppState) : List (List String × Int × Int) → AppState
  | [] => s
  | q :: qs => runCallbacks (update_graphs_callback s q.1 q.2.1 q.2.2).1 qs

/-- Deduplication commutes with filtering: removing duplicates after a
row selection gives the same list as selecting from the deduplicated
list. -/
theorem dedup_filter_comm {α : Type} [DecidableEq α] (p : α → Bool) :
    ∀ l : List α, (l.filter p).dedup = l.dedup.filter p := by
  intro l
  induction l with
  | nil => simp
  | cons a l ih =>
    by_cases hp : p a = true
    · by_cases hm : a ∈ l
      · have hmf : a ∈ l.filter p := List.mem_filter.mpr ⟨hm, hp⟩
        rw [List.filter_cons_of_pos hp, List.dedup_cons_of_mem hmf,
          List.dedup_cons_of_mem hm, ih]
      · have hmf : a ∉ l.filter p := fun h => hm (List.mem_filter.mp h).1
        rw [List.filter_cons_of_pos hp, List.dedup_cons_of_not_mem hmf,
          List.dedup_cons_of_not_mem hm, List.filter_cons_of_pos hp, ih]
    · by_cases hm : a ∈ l
      · rw [List.filter_cons_of_neg hp, List.dedup_cons_of_mem hm, ih]
      · rw [List.filter_cons_of_neg hp, List.dedup_cons_of_not_mem hm,
          List.filter_cons_of_neg hp, ih]

/-- A nonempty list all of whose elements equal `c` deduplicates to the
singleton `[c]`. -/
theorem dedup_eq_single_of_forall_eq {α : Type} [DecidableEq α] (c : α) :
    ∀ l : List α, l ≠ [] → (∀ x ∈ l, x = c) → l.dedup = [c] := by
  intro l
  induction l with
  | nil => intro h; exact absurd rfl h
  | cons a t ih =>
    intro _ hall
    have ha : a = c := hall a (List.mem_cons_self a t)
    cases t with
    | nil => simp [ha]
    | cons b t₂ =>
      have hb : b = c := hall b (List.mem_cons_of_mem a (List.mem_cons_self b t₂))
      have hmem : a ∈ b :: t₂ := by
        rw [ha, ← hb]; exact List.mem_cons_self b t₂
      rw [List.dedup_cons_of_mem hmem]
      exact ih (List.cons_ne_nil b t₂) fun x hx => hall x (List.mem_cons_of_mem a hx)

/-- C1: a record is in the filtered set used to build both views if and
only if it is in the source table, its gender is a member of
`selected_genders`, and its age satisfies `age_min ≤ age ≤ age_max`,
both bounds inclusive. -/
theorem mem_filterRecords_iff (tbl : List Record) (gs : List String)
    (age_min age_max : Int) (r : Record) :
    r ∈ filterRecords tbl gs age_min age_max ↔
      r ∈ tbl ∧ r.gender ∈ gs ∧ age_min ≤ r.age ∧ r.age ≤ age_max := by
  simp [filterRecords, List.mem_filter, and_assoc]

/-- C2: the sum of the `cases` column of the per-province table equals the
number of records passing the filter. -/
theorem region_counts_sum (tbl : List Record) (gs : List String)
    (age_min age_max : Int) :
    (((update_graphs tbl gs age_min age_max).1).map RegionRow.cases).sum
      = (filterRecords tbl gs age_min age_max).length := by
  have hperm :
      List.Perm (((update_graphs tbl gs age_min age_max).1).map RegionRow.cases)
        ((regionSize (filterRecords tbl gs age_min age_max)).map RegionRow.cases) :=
    (List.perm_insertionSort casesDesc _).map RegionRow.cases
  rw [hperm.sum_eq]
  have h2 :
      ((regionSize (filterRecords tbl gs age_min age_max)).map RegionRow.cases)
        = ((filterRecords tbl gs age_min age_max).map Record.province).dedup.map
            fun p => ((filterRecords tbl gs age_min age_max).map Record.province).count p := by
    simp [regionSize, List.map_map, Function.comp]
  rw [h2, List.sum_map_count_dedup_eq_length, List.length_map]

/-- C3: the per-province table handed to the bar chart is sorted in
descending order of its `cases` column: for any two rows in order (hence
any two consecutive rows) the earlier row has at least as many cases as
the later one.  The tie-break order is left undefined. -/
theorem region_counts_sorted (tbl : List Record) (gs : List String)
    (age_min age_max : Int) :
    List.Sorted casesDesc ((update_graphs tbl gs age_min age_max).1) :=
  List.sorted_insertionSort casesDesc
    (regionSize (filterRecords tbl gs age_min age_max))

/-- C4: the lo1 age-region computation (restricting the precomputed
`gapminder_data` table to the selected genders) returns exactly the same
rows as the lo2/lo3 computation (grouping and counting the gender-filtered
record set) when no age filter is applied. -/
theorem age_region_views_equiv (tbl : List Record) (gs : List String) :
    update_age_region tbl gs = ageRegionViewLo2 tbl gs := by
  unfold update_age_region ageRegionViewLo2 gapminder_data ageRegionSize
  rw [List.filter_map]
  have hmap : (tbl.filter fun r => gs.contains r.gender).map Record.key
      = (tbl.map Record.key).filter fun k => gs.contains k.2.2 :=
    (@List.filter_map Record (Int × String × String)
      (fun k => gs.contains k.2.2) Record.key tbl).symm
  rw [hmap, dedup_filter_comm]
  have hpred :
      ((fun row : AgeRegionRow => gs.contains row.gender) ∘
          fun k : Int × String × String =>
            (⟨k.1, k.2.1, k.2.2, (tbl.map Record.key).count k⟩ : AgeRegionRow))
        = fun k : Int × String × String => gs.contains k.2.2 := rfl
  rw [hpred]
  apply List.map_congr_left
  intro k hk
  have hpk : (fun k : Int × String × String => gs.contains k.2.2) k = true :=
    (List.mem_filter.mp hk).2
  rw [@List.count_filter (Int × String × String) _ _
    (fun k => gs.contains k.2.2) k (tbl.map Record.key) hpk]

/-- C5: with the empty selected-gender set the filtered set is empty, and
for every filter state whose filtered set is empty, `build_views` returns
two empty tables (and, being a total function, raises no error). -/
theorem build_views_empty (tbl : List Record) (age_min age_max : Int) :
    build_views tbl [] age_min age_max = ([], [])
      ∧ ∀ gs : List String, filterRecords tbl gs age_min age_max = [] →
          build_views tbl gs age_min age_max = ([], []) := by
  have hbase : ∀ gs : List String, filterRecords tbl gs age_min age_max = [] →
      build_views tbl gs age_min age_max = ([], []) := by
    intro gs h
    simp [build_views, update_graphs, h, region_cases_df, regionSize, ageRegionSize]
  refine ⟨hbase [] ?_, hbase⟩
  simp [filterRecords]

/-- C5 witness: the empty-result theorem applied at a concrete table and a
gender selection matching no record. -/
theorem build_views_empty_witness :
    build_views [⟨"F", 30, "Buenos Aires"⟩] ["M"] 0 100 = ([], []) :=
  (build_views_empty [⟨"F", 30, "Buenos Aires"⟩] 0 100).2 ["M"] (by decide)

/-- C6: the provinces of the per-province table are exactly the provinces
occurring among the filtered records, each in exactly one row. -/
theorem region_provinces_exact (tbl : List Record) (gs : List String)
    (age_min age_max : Int) :
    (((update_graphs tbl gs age_min age_max).1).map RegionRow.province).Nodup
      ∧ ∀ p : String,
          p ∈ ((update_graphs tbl gs age_min age_max).1).map RegionRow.province ↔
            p ∈ (filterRecords tbl gs age_min age_max).map Record.province := by
  have hperm :
      List.Perm (((update_graphs tbl gs age_min age_max).1).map RegionRow.province)
        ((regionSize (filterRecords tbl gs age_min age_max)).map RegionRow.province) :=
    (List.perm_insertionSort casesDesc _).map RegionRow.province
  have hdedup :
      (regionSize (filterRecords tbl gs age_min age_max)).map RegionRow.province
        = ((filterRecords tbl gs age_min age_max).map Record.province).dedup := by
    rw [regionSize, List.map_map]
    exact (List.map_congr_left fun p _ => rfl).trans
      (List.map_id ((filterRecords tbl gs age_min age_max).map Record.province).dedup)
  constructor
  · exact hperm.nodup_iff.mpr (hdedup ▸ List.nodup_dedup _)
  · intro p
    rw [hperm.mem_iff, hdedup, List.mem_dedup]

/-- C7: when exactly one gender category `g` is selected, every row of the
age-region table has gender `g`. -/
theorem single_gender_rows (tbl : List Record) (g : String)
    (age_min age_max : Int) (row : AgeRegionRow)
    (hrow : row ∈ (update_graphs tbl [g] age_min age_max).2) :
    row.gender = g := by
  obtain ⟨k, hk, hmk⟩ := List.mem_map.mp hrow
  obtain ⟨r, hr, hkey⟩ :=
    List.mem_map.mp (List.mem_dedup.mp hk)
  have hg : r.gender ∈ [g] :=
    ((mem_filterRecords_iff tbl [g] age_min age_max r).mp hr).2.1
  have hgen : row.gender = k.2.2 := by rw [← hmk]
  rw [hgen, ← hkey]
  simpa [Record.key] using hg

/-- C7 witness: the single-gender theorem applied to a concrete table and
a concrete row of its age-region output. -/
theorem single_gender_rows_witness :
    (⟨30, "Buenos Aires", "F", 1⟩ : AgeRegionRow).gender = "F" :=
  single_gender_rows [⟨"F", 30, "Buenos Aires"⟩] "F" 0 100
    ⟨30, "Buenos Aires", "F", 1⟩ (by decide)

/-- C8 counterexample: a filter state selecting the single gender
category "F" over a table whose two "F" records live in two provinces
produces two-row tables, not single-row ones. -/
theorem single_category_single_row_cex :
    ((build_views [⟨"F", 30, "Buenos Aires"⟩, ⟨"F", 40, "Cordoba"⟩]
        ["F"] 0 100).1).length = 2
      ∧ ((build_views [⟨"F", 30, "Buenos Aires"⟩, ⟨"F", 40, "Cordoba"⟩]
          ["F"] 0 100).2).length = 2 :=
  ⟨rfl, rfl⟩

/-- C8 amended: when the filtered record set is nonempty and all filtered
records share one (age, province, gender) key, the two output tables each
contain a single row.  (A single selected category alone does not bound
the row count: the rows are one per distinct grouping key among the
filtered records.) -/
theorem single_key_single_row (tbl : List Record) (gs : List String)
    (age_min age_max : Int) (k : Int × String × String)
    (hne : filterRecords tbl gs age_min age_max ≠ [])
    (hall : ∀ r ∈ filterRecords tbl gs age_min age_max, r.key = k) :
    ((build_views tbl gs age_min age_max).1).length = 1
      ∧ ((build_views tbl gs age_min age_max).2).length = 1 := by
  have hprovdedup :
      ((filterRecords tbl gs age_min age_max).map Record.province).dedup = [k.2.1] := by
    apply dedup_eq_single_of_forall_eq
    · simpa using hne
    · intro x hx
      obtain ⟨r, hr, hxr⟩ := List.mem_map.mp hx
      rw [← hxr]
      exact congrArg (fun t => t.2.1) (hall r hr)
  have hkeydedup :
      ((filterRecords tbl gs age_min age_max).map Record.key).dedup = [k] := by
    apply dedup_eq_single_of_forall_eq
    · simpa using hne
    · intro x hx
      obtain ⟨r, hr, hxr⟩ := List.mem_map.mp hx
      rw [← hxr]
      exact hall r hr
  constructor
  · calc ((build_views tbl gs age_min age_max).1).length
        = (regionSize (filterRecords tbl gs age_min age_max)).length :=
          List.length_insertionSort casesDesc _
      _ = 1 := by simp [regionSize, hprovdedup]
  · show (ageRegionSize (filterRecords tbl gs age_min age_max)).length = 1
    simp [ageRegionSize, hkeydedup]

/-- C8 amended witness: the single-key theorem applied at a concrete
one-record table. -/
theorem single_key_single_row_witness :
    ((build_views [⟨"F", 30, "Buenos Aires"⟩] ["F"] 0 100).1).length = 1
      ∧ ((build_views [⟨"F", 30, "Buenos Aires"⟩] ["F"] 0 100).2).length = 1 :=
  single_key_single_row [⟨"F", 30, "Buenos Aires"⟩] ["F"] 0 100
    (30, "Buenos Aires", "F") (by decide) (by decide)

/-- C9: a callback invocation, and any sequence of callback invocations,
leaves the app state (in particular the loaded source table
`covid_filtered`) unchanged; the callback only constructs new derived
tables from it. -/
theorem callback_preserves_state (s : AppState) (gs : List String)
    (age_min age_max : Int) :
    (update_graphs_callback s gs age_min age_max).1 = s
      ∧ ∀ qs : List (List String × Int × Int), runCallbacks s qs = s := by
  refine ⟨rfl, fun qs => ?_⟩
  induction qs with
  | nil => rfl
  | cons q qs ih => exact ih

/-- C10: the view computation is deterministic: two invocations of
`update_graphs` on equal source tables, equal selected genders and equal
age bounds return equal (region table, age-region table) pairs. -/
theorem update_graphs_deterministic (tbl₁ tbl₂ : List Record)
    (gs₁ gs₂ : List String) (lo₁ lo₂ hi₁ hi₂ : Int)
    (ht : tbl₁ = tbl₂) (hg : gs₁ = gs₂) (hlo : lo₁ = lo₂) (hhi : hi₁ = hi₂) :
    update_graphs tbl₁ gs₁ lo₁ hi₁ = update_graphs tbl₂ gs₂ lo₂ hi₂ := by
  subst ht; subst hg; subst hlo; subst hhi; rfl

/-- C10 witness: the determinism theorem applied at a concrete invocation. -/
theorem update_graphs_deterministic_witness :
    update_graphs [⟨"M", 20, "Salta"⟩] ["M"] 0 50
      = update_graphs [⟨"M", 20, "Salta"⟩] ["M"] 0 50 :=
  update_graphs_deterministic _ _ _ _ _ _ _ _ rfl rfl rfl rfl

end Ivi
